import Mathlib

/-!
Verification development for the FRANC service-portal core: a shallow
embedding of `src/workflow_engine.py` (the sequential multi-step workflow
engine) and `src/validation.py` (the pure form-validation layer), together
with theorems settling the behavioural claims about them.

Modelling conventions:
* Python runtime values that flow through the engine are modelled by the
  universal type `Value` (dicts as association lists, arbitrary objects as
  `Value.obj` carrying a type name and an attribute list).
* A Python exception is modelled by `Except String`, carrying `str(e)`.
* The mutable shared context dict is modelled by `Ctx`: its caller-supplied
  entries (`vars`) plus the two reserved log keys `created_objects` and
  `errors`, which `execute` seeds with fresh empty lists (lines 76-78).
* A step's callable is a pair of behaviours, one per calling convention the
  engine can use (bound call with args/kwargs, or context call); the engine
  picks the behaviour exactly as the source dispatches at line 122.
* For the aliasing claim about the caller's dict, a tiny store of dicts
  addressed by numeric references models `initial_context.copy()`.
-/

namespace Franc

/-- A Python runtime value as seen by the workflow engine: dicts are
association lists, and a non-dict object (`Value.obj`) carries its type
name and its attribute dictionary, as probed by `getattr`. -/
inductive Value where
  | null
  | bool (b : Bool)
  | int (n : Int)
  | str (s : String)
  | list (items : List Value)
  | dict (entries : List (String × Value))
  | obj (typeName : String) (attrs : List (String × Value))

/-- Python `str(-)` on a `Value`; only primitive renderings are relied on
(the engine applies it to `id`/`name` attributes, which are primitives). -/
def pyStr : Value → String
  | Value.null => "None"
  | Value.bool b => if b then "True" else "False"
  | Value.int n => toString n
  | Value.str s => s
  | Value.list _ => "<list>"
  | Value.dict _ => "<dict>"
  | Value.obj t _ => "<" ++ t ++ " object>"

/-- Python `type(v).__name__`. -/
def pyTypeName : Value → String
  | Value.null => "NoneType"
  | Value.bool _ => "bool"
  | Value.int _ => "int"
  | Value.str _ => "str"
  | Value.list _ => "list"
  | Value.dict _ => "dict"
  | Value.obj t _ => t

/-- Python `getattr(v, attr, default)`: only `Value.obj` exposes
attributes; every other value falls back to the default. -/
def getattrD (v : Value) (attr : String) (dflt : Value) : Value :=
  match v with
  | Value.obj _ attrs =>
    match attrs.lookup attr with
    | some a => a
    | Option.none => dflt
  | _ => dflt

/-- The shared workflow context dict: caller-supplied entries plus the two
reserved log keys that `execute` seeds (workflow_engine.py lines 76-78). -/
structure Ctx where
  vars : List (String × Value)
  created_objects : List Value
  errors : List Value

/-- A step's callable. The engine calls a Python function either with the
registration-time args/kwargs or with the shared context (line 122's
dispatch); the two fields give the function's behaviour under each calling
convention. A context call may both return a value (or raise) and mutate
the context, so it returns the context unconditionally. -/
structure Callable where
  callArgs : List Value → List (String × Value) → Except String Value
  callCtx : Ctx → Except String Value × Ctx

/-- `WorkflowStep` (workflow_engine.py lines 16-22): name, callable, and
optional args/kwargs (absent = `None`). -/
structure WorkflowStep where
  name : String
  function : Callable
  args : Option (List Value)
  kwargs : Option (List (String × Value))

/-- One entry of `steps_results`: the dict
`\x7b"step": ..., "result": ..., "status": ...\x7d` built at lines 144-148
and 160-164. -/
structure StepResult where
  step : String
  result : Value
  status : String

/-- One entry of the local `errors` list: the dict
`\x7b"step": ..., "error": ..., "status": "failed"\x7d` built at lines
153-157. -/
structure ErrorInfo where
  step : String
  error : String
  status : String

/-- `WorkflowResult` (workflow_engine.py lines 25-32). -/
structure WorkflowResult where
  success_count : Nat
  total_steps : Nat
  error_count : Nat
  steps_results : List StepResult
  errors : List ErrorInfo

/-- The dispatch condition of line 122:
`step.args is not None or step.kwargs is not None`. -/
def isBound (step : WorkflowStep) : Bool :=
  step.args.isSome || step.kwargs.isSome

/-- The call made inside the `try` block (lines 122-126 and 139-141):
a bound step is called as `function(*(step.args or []), **(step.kwargs or
\x7b\x7d))` and does not touch the context; a context step is called as
`function(context)`. -/
def callStep (step : WorkflowStep) (context : Ctx) : Except String Value × Ctx :=
  if isBound step then
    (step.function.callArgs (step.args.getD []) (step.kwargs.getD []), context)
  else
    step.function.callCtx context

/-- Result normalisation for the bound branch (lines 129-138): a dict is
kept as-is; any other value is replaced by a synthesised record built from
its `id`/`name` attributes with default `"unknown"`. -/
def normalizeResult (result : Value) : Value :=
  match result with
  | Value.dict entries => Value.dict entries
  | _ =>
    Value.dict
      [("status", Value.str "created"),
       ("node_id", Value.str (pyStr (getattrD result "id" (Value.str "unknown")))),
       ("name", Value.str (pyStr (getattrD result "name" (Value.str "unknown")))),
       ("message", Value.str ("Created " ++ pyTypeName result ++ " node"))]

/-- The failure payload placed in `step_result["result"]` (line 162). -/
def failPayload (stepName msg : String) : Value :=
  Value.dict
    [("status", Value.str "failed"),
     ("error", Value.str msg),
     ("message", Value.str ("Step " ++ "\x27" ++ stepName ++ "\x27" ++ " failed: " ++ msg))]

/-- The record appended to `context["created_objects"]` (lines 150 and
166). -/
def createdRecord (stepName : String) (payload : Value) (status : String) : Value :=
  Value.dict
    [("step", Value.str stepName), ("result", payload), ("status", Value.str status)]

/-- `WorkflowEngine._execute_single_step` (lines 105-168). The source
computes the dispatch condition once and normalises inside the bound
branch; here the call is factored through `callStep` and the success
payload is `if isBound step then normalizeResult result else result`,
which is the same branch structure. On success the success record is
appended to the context's created-object log (line 150); on an exception
the error record goes to the local `errors` list (line 158) and a failed
record to the created-object log (line 166) — nothing is ever appended to
the context's `errors` log. -/
def execute_single_step (step : WorkflowStep) (context : Ctx)
    (errors : List ErrorInfo) : StepResult × Ctx × List ErrorInfo :=
  match callStep step context with
  | (Except.ok result, context1) =>
    let normalized_result := if isBound step then normalizeResult result else result
    let step_result : StepResult := ⟨step.name, normalized_result, "success"⟩
    let context2 : Ctx :=
      { context1 with
        created_objects := context1.created_objects ++
          [createdRecord step.name normalized_result "success"] }
    (step_result, context2, errors)
  | (Except.error e, context1) =>
    let error_info : ErrorInfo := ⟨step.name, e, "failed"⟩
    let step_result : StepResult := ⟨step.name, failPayload step.name e, "failed"⟩
    let context2 : Ctx :=
      { context1 with
        created_objects := context1.created_objects ++
          [createdRecord step.name (failPayload step.name e) "failed"] }
    (step_result, context2, errors ++ [error_info])

/-- The step loop of `execute` (lines 84-90): run steps in order, append
each step result, and break as soon as a step's status is `"failed"`. -/
def executeSteps : List WorkflowStep → Ctx → List ErrorInfo →
    List StepResult × Ctx × List ErrorInfo
  | [], context, errors => ([], context, errors)
  | step :: rest, context, errors =>
    let t := execute_single_step step context errors
    if t.1.status == "failed" then
      ([t.1], t.2.1, t.2.2)
    else
      let u := executeSteps rest t.2.1 t.2.2
      (t.1 :: u.1, u.2.1, u.2.2)

/-- `WorkflowEngine` (lines 35-46): a display name and the registered
steps. -/
structure WorkflowEngine where
  workflow_name : String
  steps : List WorkflowStep

/-- `WorkflowEngine.add_step` (lines 48-64): appends
`WorkflowStep(name, function, list(args) or None, kwargs or None)` —
empty args/kwargs collapse to `None`, making the step context-style. -/
def add_step (engine : WorkflowEngine) (name : String) (function : Callable)
    (args : List Value) (kwargs : List (String × Value)) : WorkflowEngine :=
  { engine with
    steps := engine.steps ++
      [⟨name, function,
        if args.isEmpty then Option.none else some args,
        if kwargs.isEmpty then Option.none else some kwargs⟩] }

/-- `WorkflowEngine.execute` (lines 66-103): copy the initial context,
seed the two reserved log keys, run the step loop, then compute the
summary counts. The engine's internal final context is returned alongside
the `WorkflowResult` so that theorems can observe the reserved logs; the
source keeps it private. -/
def execute (engine : WorkflowEngine) (initial_context : List (String × Value)) :
    WorkflowResult × Ctx :=
  let context : Ctx := ⟨initial_context, [], []⟩
  let t := executeSteps engine.steps context []
  (⟨(t.1.filter (fun r => r.status == "success")).length,
    t.1.length,
    t.2.2.length,
    t.1,
    t.2.2⟩, t.2.1)

/-- Rendering of the final internal context as a plain dict, for the store
model: the caller-visible keys plus the two reserved log keys that
`execute` ensured exist. -/
def ctxAsDict (context : Ctx) : List (String × Value) :=
  context.vars ++
    [("created_objects", Value.list context.created_objects),
     ("errors", Value.list context.errors)]

/-- Reference-semantics wrapper for line 76
(`context = initial_context.copy()`): dicts live in a store addressed by
numeric references; `execute` reads the caller's dict, allocates a fresh
copy, and every engine write lands in the copy while the caller's
reference is never written. -/
def executeStore (engine : WorkflowEngine)
    (store : List (List (String × Value))) (r : Nat) :
    List (List (String × Value)) × WorkflowResult :=
  let initial_context := store.getD r []
  let contextRef := store.length
  let store1 := store ++ [initial_context]
  let t := execute engine initial_context
  (store1.set contextRef (ctxAsDict t.2), t.1)

/-- Python `str.isspace`-style whitespace recognised by `str.strip()`
(the ASCII whitespace characters; the names in these claims contain none
of the rarer Unicode whitespace). -/
def pyWhitespace (c : Char) : Bool :=
  c == ' ' || c == '\t' || c == '\n' || c == '\r' || c == '\x0b' || c == '\x0c'

/-- Python `s.strip()`. -/
def pyStrip (s : String) : String :=
  String.mk (((s.data.dropWhile pyWhitespace).reverse.dropWhile pyWhitespace).reverse)

/-- Python `s.endswith(suffix)`. -/
def pyEndsWith (s suffix : String) : Bool :=
  suffix.data.isSuffixOf s.data

/-- Key order of `collections.Counter(l).items()`: each distinct element
once, in first-occurrence order. -/
def counterKeys : List String → List String
  | [] => []
  | x :: xs => x :: (counterKeys xs).filter (fun y => y ≠ x)

/-- Insert into a `≤`-sorted list of strings, preserving order. -/
def insertStr (x : String) : List String → List String
  | [] => [x]
  | y :: ys => if x < y then x :: y :: ys else y :: insertStr x ys

/-- Python `sorted` on strings (code-point lexicographic; the inputs here
are duplicate-free, so any correct sort yields Python's output). -/
def sortStrings : List String → List String
  | [] => []
  | x :: xs => insertStr x (sortStrings xs)

/-- validation.py line 89: strip every name and discard the blank ones. -/
def namesClean (names : List String) : List String :=
  (names.map pyStrip).filter (fun n => n ≠ "")

/-- `validate_unique_names` (validation.py lines 71-101). -/
def validate_unique_names (names : List String) (field_name : String) : Option String :=
  let names_clean := namesClean names
  let duplicates := (counterKeys names_clean).filter (fun n => names_clean.count n > 1)
  match duplicates with
  | [] => Option.none
  | _ =>
    let plural_field := if pyEndsWith field_name "s" then field_name else field_name ++ "s"
    let duplicates_str := String.intercalate ", " (sortStrings duplicates)
    some (plural_field ++ " must be unique. Duplicates found: " ++ duplicates_str)

/-- validation.py line 14. -/
def MIN_VPC_GROUP_MEMBERS : Nat := 2

/-- One iteration of the dict update
`vpc_group_counts[group] = vpc_group_counts.get(group, 0) + 1`:
increment an existing key in place, or append a new key (Python dicts
preserve insertion order). -/
def bumpCount : List (String × Nat) → String → List (String × Nat)
  | [], g => [(g, 1)]
  | (k, c) :: rest, g =>
    if k == g then (k, c + 1) :: rest else (k, c) :: bumpCount rest g

/-- The body of the counting loop of `validate_vpc_groups` (lines
182-186): for one `(is_vpc, group_name)` pair, count the stripped group
name when the flag is set and the name is non-blank. -/
def vpcStep (counts : List (String × Nat)) (p : Bool × String) :
    List (String × Nat) :=
  let group := pyStrip p.2
  if p.1 && !(group == "") then bumpCount counts group else counts

/-- The counting loop of `validate_vpc_groups` (lines 180-186). -/
def vpcGroupCounts (pairs : List (Bool × String)) : List (String × Nat) :=
  pairs.foldl vpcStep []

/-- `validate_vpc_groups` (validation.py lines 155-189); the raised
`ValueError` on a length mismatch is the `Except.error` case. -/
def validate_vpc_groups (vpcs : List Bool) (vpc_groups : List String) :
    Except String (List String) :=
  if vpcs.length ≠ vpc_groups.length then
    Except.error ("vpcs and vpc_groups must have same length: " ++
      toString vpcs.length ++ " != " ++ toString vpc_groups.length)
  else
    let counts := vpcGroupCounts (vpcs.zip vpc_groups)
    Except.ok (counts.filterMap
      (fun p => if p.2 < MIN_VPC_GROUP_MEMBERS then some p.1 else Option.none))

/-- Count lookup in the modelled dict, with 0 for an absent key. -/
def lookupN : List (String × Nat) → String → Nat
  | [], _ => 0
  | (k0, c0) :: rest, k => if k0 == k then c0 else lookupN rest k

/-- Number of interfaces that reference group `g`: pairs whose flag is set
and whose stripped group name equals `g`. -/
def memberCount (vpcs : List Bool) (vpc_groups : List String) (g : String) : Nat :=
  ((vpcs.zip vpc_groups).filter (fun p => p.1 && (pyStrip p.2 == g))).length

/-- Concrete step function that returns `v` under either calling
convention and leaves the context alone. -/
def okCallable (v : Value) : Callable :=
  ⟨fun _ _ => Except.ok v, fun ctx => (Except.ok v, ctx)⟩

/-- Concrete step function that raises an exception with message `msg`
under either calling convention. -/
def failCallable (msg : String) : Callable :=
  ⟨fun _ _ => Except.error msg, fun ctx => (Except.error msg, ctx)⟩

/-- Concrete context-style step function that records that it ran by
setting the `C_ran` flag in the shared context. -/
def flagCallable : Callable :=
  ⟨fun _ _ => Except.ok (Value.dict []),
   fun ctx => (Except.ok (Value.dict []),
     { ctx with vars := ctx.vars ++ [("C_ran", Value.bool true)] })⟩

/-- Three-step workflow for the abort scenario: `A` succeeds, `B` raises,
`C` would succeed and would set the `C_ran` flag. -/
def engAbort : WorkflowEngine :=
  add_step (add_step (add_step ⟨"wf", []⟩
    "A" (okCallable (Value.dict [("status", Value.str "ok")])) [] [])
    "B" (failCallable "boom") [] [])
    "C" flagCallable [] []

/-- Single failing step, for observing where the error record lands. -/
def engOneFail : WorkflowEngine :=
  add_step ⟨"wf", []⟩ "Create Branch" (failCallable "boom") [] []

/-- The created object threaded between the two context-style steps. -/
def metroObj : Value := Value.obj "Metro" [("id", Value.str "m-1")]

/-- Context-style step function that writes `context["metro"]`. -/
def writeMetro : Callable :=
  ⟨fun _ _ => Except.error "TypeError",
   fun ctx => (Except.ok (Value.dict [("status", Value.str "created")]),
     { ctx with vars := ctx.vars ++ [("metro", metroObj)] })⟩

/-- Context-style step function that reads `context["metro"]` and returns
the object it finds (guarding against a missing key). -/
def readMetro : Callable :=
  ⟨fun _ _ => Except.error "TypeError",
   fun ctx =>
     (match ctx.vars.lookup "metro" with
      | some v => Except.ok v
      | Option.none => Except.error "metro must be created first", ctx)⟩

/-- Two context-style steps threading `metroObj` through the shared
context. -/
def engThread : WorkflowEngine :=
  add_step (add_step ⟨"wf", []⟩ "Create Metro" writeMetro [] []) "Use Metro" readMetro [] []

/-- A raw (non-dict) object returned by a context-style step. -/
def rawNode : Value := Value.obj "Node" [("id", Value.str "abc"), ("name", Value.str "n1")]

/-- One context-style step whose function returns the raw object
`rawNode`. -/
def engRawCtx : WorkflowEngine :=
  add_step ⟨"wf", []⟩ "Create Node" (okCallable rawNode) [] []

/-- One mutating context-style step over a store-addressed context, for
the caller-aliasing claim. -/
def engMutate : WorkflowEngine :=
  add_step ⟨"wf", []⟩ "Mutate" flagCallable [] []

/-- One bound step: `okCallable` registered with a positional argument, so
it is dispatched as `function(*args)`. -/
def engBound : WorkflowEngine :=
  add_step ⟨"wf", []⟩ "Bound" (okCallable rawNode) [Value.int 5] []

/-- A bound step used by the registration-dispatch witness. -/
def boundStep : WorkflowStep :=
  ⟨"Bound", okCallable rawNode, some [Value.int 5], Option.none⟩

/-- An empty context for single-step witnesses. -/
def emptyCtx : Ctx := ⟨[], [], []⟩

/-- Two context-style steps that both succeed. -/
def engAllOk : WorkflowEngine :=
  add_step (add_step ⟨"wf", []⟩
    "A" (okCallable (Value.dict [("status", Value.str "ok")])) [] [])
    "B" (okCallable (Value.dict [])) [] []

/-- The single failing step of `engOneFail`, as a bare step. -/
def oneFailStep : WorkflowStep :=
  ⟨"Create Branch", failCallable "boom", Option.none, Option.none⟩

/-- Python `isinstance(v, dict)`. -/
def isDict : Value → Bool
  | Value.dict _ => true
  | _ => false

/-- Unfolding of `execute_single_step` when the step's call succeeds. -/
lemma execute_single_step_ok (step : WorkflowStep) (context : Ctx)
    (errors : List ErrorInfo) (v : Value) (context1 : Ctx)
    (h : callStep step context = (Except.ok v, context1)) :
    execute_single_step step context errors =
      (⟨step.name, if isBound step then normalizeResult v else v, "success"⟩,
       { context1 with
         created_objects := context1.created_objects ++
           [createdRecord step.name
             (if isBound step then normalizeResult v else v) "success"] },
       errors) := by
  unfold execute_single_step
  rw [h]

/-- Unfolding of `execute_single_step` when the step's call raises. -/
lemma execute_single_step_err (step : WorkflowStep) (context : Ctx)
    (errors : List ErrorInfo) (m : String) (context1 : Ctx)
    (h : callStep step context = (Except.error m, context1)) :
    execute_single_step step context errors =
      (⟨step.name, failPayload step.name m, "failed"⟩,
       { context1 with
         created_objects := context1.created_objects ++
           [createdRecord step.name (failPayload step.name m) "failed"] },
       errors ++ [⟨step.name, m, "failed"⟩]) := by
  unfold execute_single_step
  rw [h]

/-- `execute` in terms of the step loop. -/
lemma execute_eq (engine : WorkflowEngine) (init : List (String × Value))
    (rs : List StepResult) (contextF : Ctx) (errs : List ErrorInfo)
    (h : executeSteps engine.steps ⟨init, [], []⟩ [] = (rs, contextF, errs)) :
    execute engine init =
      (⟨(rs.filter (fun r => r.status == "success")).length, rs.length,
        errs.length, rs, errs⟩, contextF) := by
  have h1 : execute engine init =
      (⟨((executeSteps engine.steps ⟨init, [], []⟩ []).1.filter
          (fun r => r.status == "success")).length,
        (executeSteps engine.steps ⟨init, [], []⟩ []).1.length,
        (executeSteps engine.steps ⟨init, [], []⟩ []).2.2.length,
        (executeSteps engine.steps ⟨init, [], []⟩ []).1,
        (executeSteps engine.steps ⟨init, [], []⟩ []).2.2⟩,
       (executeSteps engine.steps ⟨init, [], []⟩ []).2.1) := rfl
  rw [h1, h]

/-- Structure of a run of the step loop: the attempted results are a
prefix of the registered steps in order, at most one error is produced,
every result is a success or the single terminal failure, and the error
count plus the success count equals the number of attempted steps. -/
lemma executeSteps_spec (steps : List WorkflowStep) :
    ∀ (context : Ctx) (errors : List ErrorInfo),
    ∃ rs context' extra,
      executeSteps steps context errors = (rs, context', errors ++ extra) ∧
      rs.length ≤ steps.length ∧
      rs.map (fun r => r.step) = (steps.take rs.length).map (fun s => s.name) ∧
      extra.length + (rs.filter (fun r => r.status == "success")).length = rs.length ∧
      (((∀ r ∈ rs, r.status = "success") ∧ extra = []) ∨
        (∃ rs0 sr e, rs = rs0 ++ [sr] ∧ (∀ r ∈ rs0, r.status = "success") ∧
          sr.status = "failed" ∧ extra = [e] ∧ e.step = sr.step ∧
          e.status = "failed")) := by
  induction steps with
  | nil =>
    intro context errors
    exact ⟨[], context, [], by simp [executeSteps], by simp, by simp, by simp,
      Or.inl ⟨by simp, rfl⟩⟩
  | cons step rest ih =>
    intro context errors
    rcases hc : callStep step context with ⟨res, context1⟩
    cases res with
    | error m =>
      have hs := execute_single_step_err step context errors m context1 hc
      have hrun : executeSteps (step :: rest) context errors =
          ([⟨step.name, failPayload step.name m, "failed"⟩],
           { context1 with
             created_objects := context1.created_objects ++
               [createdRecord step.name (failPayload step.name m) "failed"] },
           errors ++ [⟨step.name, m, "failed"⟩]) := by
        simp only [executeSteps]
        rw [hs]
        exact rfl
      refine ⟨[⟨step.name, failPayload step.name m, "failed"⟩], _,
        [⟨step.name, m, "failed"⟩], hrun, by simp, by simp, by rfl, ?_⟩
      exact Or.inr ⟨[], ⟨step.name, failPayload step.name m, "failed"⟩,
        ⟨step.name, m, "failed"⟩, rfl, by simp, rfl, rfl, rfl, rfl⟩
    | ok v =>
      have hs := execute_single_step_ok step context errors v context1 hc
      obtain ⟨rs', context'', extra, heq, hlen, hnames, hcount, hdisj⟩ :=
        ih { context1 with
              created_objects := context1.created_objects ++
                [createdRecord step.name
                  (if isBound step then normalizeResult v else v) "success"] } errors
      have h1 : executeSteps (step :: rest) context errors =
          (⟨step.name, if isBound step then normalizeResult v else v, "success"⟩ ::
            (executeSteps rest
              { context1 with
                created_objects := context1.created_objects ++
                  [createdRecord step.name
                    (if isBound step then normalizeResult v else v) "success"] } errors).1,
           (executeSteps rest
              { context1 with
                created_objects := context1.created_objects ++
                  [createdRecord step.name
                    (if isBound step then normalizeResult v else v) "success"] } errors).2.1,
           (executeSteps rest
              { context1 with
                created_objects := context1.created_objects ++
                  [createdRecord step.name
                    (if isBound step then normalizeResult v else v) "success"] } errors).2.2) := by
        simp only [executeSteps]
        rw [hs]
        exact rfl
      have hrun : executeSteps (step :: rest) context errors =
          (⟨step.name, if isBound step then normalizeResult v else v, "success"⟩ :: rs',
           context'', errors ++ extra) := by
        rw [h1, heq]
      refine ⟨⟨step.name, if isBound step then normalizeResult v else v,
        "success"⟩ :: rs', context'', extra, hrun, ?_, ?_, ?_, ?_⟩
      · simp only [List.length_cons]
        omega
      · simp only [List.map_cons, List.length_cons, List.take_succ_cons]
        rw [hnames]
      · rw [List.filter_cons_of_pos (by rfl)]
        simp only [List.length_cons]
        omega
      · rcases hdisj with ⟨hall, hex⟩ | ⟨rs0, sr, e, hrs, hall, hsr, hex, hstep, hstat⟩
        · refine Or.inl ⟨?_, hex⟩
          intro r hr
          rcases List.mem_cons.mp hr with h | h
          · rw [h]
          · exact hall r h
        · refine Or.inr ⟨⟨step.name, if isBound step then normalizeResult v else v,
            "success"⟩ :: rs0, sr, e, by rw [hrs]; rfl, ?_, hsr, hex, hstep, hstat⟩
          intro r hr
          rcases List.mem_cons.mp hr with h | h
          · rw [h]
          · exact hall r h

/-- When every registered callable returns without raising (under either
calling convention, on any context), the loop attempts every step, records
each as a success, and produces no errors. -/
lemma executeSteps_all_ok (steps : List WorkflowStep) :
    ∀ (context : Ctx) (errors : List ErrorInfo),
    (∀ s ∈ steps, ∀ c, ∃ v c', callStep s c = (Except.ok v, c')) →
    ∃ rs context',
      executeSteps steps context errors = (rs, context', errors) ∧
      rs.map (fun r => r.step) = steps.map (fun s => s.name) ∧
      ∀ r ∈ rs, r.status = "success" := by
  induction steps with
  | nil =>
    intro context errors _
    exact ⟨[], context, by simp [executeSteps], by simp, by simp⟩
  | cons step rest ih =>
    intro context errors hok
    obtain ⟨v, context1, hc⟩ := hok step (List.mem_cons_self step rest) context
    have hs := execute_single_step_ok step context errors v context1 hc
    obtain ⟨rs', context'', heq, hnames, hall⟩ :=
      ih { context1 with
            created_objects := context1.created_objects ++
              [createdRecord step.name
                (if isBound step then normalizeResult v else v) "success"] } errors
        (fun s hsmem c => hok s (List.mem_cons_of_mem step hsmem) c)
    have h1 : executeSteps (step :: rest) context errors =
        (⟨step.name, if isBound step then normalizeResult v else v, "success"⟩ ::
          (executeSteps rest
            { context1 with
              created_objects := context1.created_objects ++
                [createdRecord step.name
                  (if isBound step then normalizeResult v else v) "success"] } errors).1,
         (executeSteps rest
            { context1 with
              created_objects := context1.created_objects ++
                [createdRecord step.name
                  (if isBound step then normalizeResult v else v) "success"] } errors).2.1,
         (executeSteps rest
            { context1 with
              created_objects := context1.created_objects ++
                [createdRecord step.name
                  (if isBound step then normalizeResult v else v) "success"] } errors).2.2) := by
      simp only [executeSteps]
      rw [hs]
      exact rfl
    refine ⟨⟨step.name, if isBound step then normalizeResult v else v,
      "success"⟩ :: rs', context'', by rw [h1, heq], ?_, ?_⟩
    · simp only [List.map_cons]
      rw [hnames]
    · intro r hr
      rcases List.mem_cons.mp hr with h | h
      · rw [h]
      · exact hall r h

/-- `counterKeys` preserves membership. -/
lemma mem_counterKeys (a : String) : ∀ (l : List String),
    a ∈ counterKeys l ↔ a ∈ l := by
  intro l
  induction l with
  | nil => simp [counterKeys]
  | cons x xs ih =>
    simp only [counterKeys, List.mem_cons, List.mem_filter]
    constructor
    · rintro (h | ⟨h1, _⟩)
      · exact Or.inl h
      · exact Or.inr (ih.mp h1)
    · rintro (h | h)
      · exact Or.inl h
      · by_cases hax : a = x
        · exact Or.inl hax
        · exact Or.inr ⟨ih.mpr h, by simp [hax]⟩

/-- Looking up a key after a `bumpCount`: the bumped key gains one, every
other key is unchanged. -/
lemma bumpCount_lookupN (g k : String) : ∀ (m : List (String × Nat)),
    lookupN (bumpCount m g) k =
      if k = g then lookupN m k + 1 else lookupN m k := by
  intro m
  induction m with
  | nil =>
    by_cases h : k = g
    · subst h
      simp [bumpCount, lookupN]
    · simp [bumpCount, lookupN, h, Ne.symm h]
  | cons hd tl ih =>
    rcases hd with ⟨k0, c0⟩
    by_cases h0 : k0 = g
    · subst h0
      by_cases hk : k = k0
      · subst hk
        simp [bumpCount, lookupN]
      · simp [bumpCount, lookupN, hk, Ne.symm hk]
    · by_cases hk : k = k0
      · subst hk
        simp [bumpCount, lookupN, h0]
      · simp [bumpCount, lookupN, h0, hk, Ne.symm hk, ih]

/-- Keys after a `bumpCount`: unchanged when the key is present, extended
by the new key at the end otherwise. -/
lemma bumpCount_keys (g : String) : ∀ (m : List (String × Nat)),
    (bumpCount m g).map (fun p => p.1) =
      if g ∈ m.map (fun p => p.1) then m.map (fun p => p.1)
      else m.map (fun p => p.1) ++ [g] := by
  intro m
  induction m with
  | nil => simp [bumpCount]
  | cons hd tl ih =>
    rcases hd with ⟨k0, c0⟩
    by_cases h0 : k0 = g
    · subst h0
      simp [bumpCount]
    · by_cases hg : g ∈ tl.map (fun p => p.1)
      · simp [bumpCount, h0, Ne.symm h0, hg, ih]
      · simp [bumpCount, h0, Ne.symm h0, hg, ih]

/-- Entries after a `bumpCount` keep positive counts and non-blank keys.
-/
lemma bumpCount_entries (g : String) (hg : g ≠ "") :
    ∀ (m : List (String × Nat)),
    (∀ p ∈ m, 1 ≤ p.2 ∧ p.1 ≠ "") →
    ∀ p ∈ bumpCount m g, 1 ≤ p.2 ∧ p.1 ≠ "" := by
  intro m
  induction m with
  | nil =>
    intro _ p hp
    rcases List.mem_singleton.mp hp with h
    rw [h]
    exact ⟨Nat.le_refl 1, hg⟩
  | cons hd tl ih =>
    rcases hd with ⟨k0, c0⟩
    intro hm p hp
    by_cases h0 : k0 = g
    · subst h0
      rw [show bumpCount ((k0, c0) :: tl) k0 = (k0, c0 + 1) :: tl from by
        simp [bumpCount]] at hp
      rcases List.mem_cons.mp hp with h | h
      · rw [h]
        have h2 := hm (k0, c0) (List.mem_cons_self _ _)
        exact ⟨Nat.le_succ_of_le h2.1, h2.2⟩
      · exact hm p (List.mem_cons_of_mem _ h)
    · rw [show bumpCount ((k0, c0) :: tl) g = (k0, c0) :: bumpCount tl g from by
        simp [bumpCount, h0]] at hp
      rcases List.mem_cons.mp hp with h | h
      · rw [h]
        exact hm (k0, c0) (List.mem_cons_self _ _)
      · exact ih (fun q hq => hm q (List.mem_cons_of_mem _ hq)) p h

/-- Lookup through the whole counting fold: for a non-blank group `k`,
the final count is the starting count plus the number of pairs whose flag
is set and whose stripped name is `k`. -/
lemma vpcFold_lookupN (k : String) (hk : k ≠ "") :
    ∀ (pairs : List (Bool × String)) (m : List (String × Nat)),
    lookupN (pairs.foldl vpcStep m) k =
      lookupN m k +
        (pairs.filter (fun p => p.1 && (pyStrip p.2 == k))).length := by
  intro pairs
  induction pairs with
  | nil => intro m; simp
  | cons p rest ih =>
    intro m
    rcases p with ⟨b, gname⟩
    rw [List.foldl_cons, ih]
    cases b with
    | false => simp [vpcStep, List.filter_cons]
    | true =>
      by_cases hempty : pyStrip gname = ""
      · have hne : (pyStrip gname == k) = false := by
          simp [hempty, Ne.symm hk]
        have hstep : vpcStep m (true, gname) = m := by
          simp [vpcStep, hempty]
        rw [hstep]
        simp [List.filter_cons, hne]
      · have hstep : vpcStep m (true, gname) = bumpCount m (pyStrip gname) := by
          simp [vpcStep, hempty]
        rw [hstep, bumpCount_lookupN]
        by_cases heq : k = pyStrip gname
        · have hbeq : (pyStrip gname == k) = true := by simp [heq.symm]
          have hfilter : List.filter (fun p => p.1 && (pyStrip p.2 == k))
              ((true, gname) :: rest) =
              (true, gname) ::
                List.filter (fun p => p.1 && (pyStrip p.2 == k)) rest := by
            simp [List.filter_cons, hbeq]
          rw [hfilter, if_pos heq]
          simp only [List.length_cons]
          omega
        · have hbeq : (pyStrip gname == k) = false := by
            simp [Ne.symm heq]
          have hfilter : List.filter (fun p => p.1 && (pyStrip p.2 == k))
              ((true, gname) :: rest) =
              List.filter (fun p => p.1 && (pyStrip p.2 == k)) rest := by
            simp [List.filter_cons, hbeq]
          rw [hfilter, if_neg heq]

/-- The counting fold keeps the key list duplicate-free and every entry
with a positive count and a non-blank key. -/
lemma vpcFold_wf : ∀ (pairs : List (Bool × String)) (m : List (String × Nat)),
    ((m.map (fun p => p.1)).Nodup ∧ ∀ p ∈ m, 1 ≤ p.2 ∧ p.1 ≠ "") →
    ((pairs.foldl vpcStep m).map (fun p => p.1)).Nodup ∧
      ∀ p ∈ pairs.foldl vpcStep m, 1 ≤ p.2 ∧ p.1 ≠ "" := by
  intro pairs
  induction pairs with
  | nil => intro m h; simpa using h
  | cons p rest ih =>
    intro m hm
    rcases p with ⟨b, gname⟩
    rw [List.foldl_cons]
    refine ih (vpcStep m (b, gname)) ?_
    by_cases hguard : (b && !(pyStrip gname == "")) = true
    · have hg : pyStrip gname ≠ "" := by
        rcases Bool.and_eq_true .. |>.mp hguard with ⟨_, h2⟩
        simpa using h2
      have hstep : vpcStep m (b, gname) = bumpCount m (pyStrip gname) := by
        simp [vpcStep, hguard]
      rw [hstep]
      constructor
      · rw [bumpCount_keys]
        by_cases hmem : pyStrip gname ∈ m.map (fun p => p.1)
        · simpa [hmem] using hm.1
        · rw [if_neg hmem]
          refine List.nodup_append.mpr ⟨hm.1, List.nodup_singleton _, ?_⟩
          intro a ha hb
          rcases List.mem_singleton.mp hb with h
          exact hmem (h ▸ ha)
      · exact bumpCount_entries (pyStrip gname) hg m hm.2
    · have hstep : vpcStep m (b, gname) = m := by
        simp only [vpcStep]
        rw [if_neg hguard]
      rw [hstep]
      exact hm

/-- In a dict with duplicate-free keys, a stored entry is what lookup
returns. -/
lemma lookupN_of_mem (s : String) (c : Nat) :
    ∀ (m : List (String × Nat)), (m.map (fun p => p.1)).Nodup →
    (s, c) ∈ m → lookupN m s = c := by
  intro m
  induction m with
  | nil => intro _ h; exact absurd h (List.not_mem_nil _)
  | cons hd tl ih =>
    rcases hd with ⟨k0, c0⟩
    intro hnd hmem
    rw [List.map_cons, List.nodup_cons] at hnd
    rcases List.mem_cons.mp hmem with h | h
    · cases h
      simp [lookupN]
    · have hk0 : k0 ≠ s := by
        intro hcon
        exact hnd.1 (hcon.symm ▸ List.mem_map.mpr ⟨(s, c), h, rfl⟩)
      simp [lookupN, hk0, ih hnd.2 h]

/-- A key with a positive lookup count is stored in the dict. -/
lemma mem_of_lookupN (s : String) :
    ∀ (m : List (String × Nat)), 1 ≤ lookupN m s → (s, lookupN m s) ∈ m := by
  intro m
  induction m with
  | nil => intro h; exact absurd h (by simp [lookupN])
  | cons hd tl ih =>
    rcases hd with ⟨k0, c0⟩
    intro h
    by_cases hk : k0 = s
    · subst hk
      simp only [lookupN, beq_self_eq_true, if_true] at h ⊢
      exact List.mem_cons_self _ _
    · have hbeq : (k0 == s) = false := by simp [hk]
      simp only [lookupN, hbeq, Bool.false_eq_true, if_false] at h ⊢
      exact List.mem_cons_of_mem _ (ih h)

/-- Claim C1: abort-on-first-failure. For every engine and initial
context, the attempted results are exactly a prefix of the registered
steps in order, and any failed result is the last one attempted (no step
after a failure is attempted). Concretely, for steps `[A, B, C]` where `A`
succeeds, `B` raises and `C` would succeed, `execute` returns
`total_steps = 2`, `success_count = 1`, `error_count = 1`, only `A` and
`B` appear in the results, and `C`'s callable never runs (the `C_ran`
side-effect flag it would set is absent from the final context). -/
theorem c1_abort_on_first_failure :
    (∀ (engine : WorkflowEngine) (init : List (String × Value)),
      (execute engine init).1.steps_results.map (fun r => r.step) =
        (engine.steps.take (execute engine init).1.total_steps).map (fun s => s.name) ∧
      ((∀ r ∈ (execute engine init).1.steps_results, r.status = "success") ∨
        ∃ rs0 sr, (execute engine init).1.steps_results = rs0 ++ [sr] ∧
          (∀ r ∈ rs0, r.status = "success") ∧ sr.status = "failed")) ∧
    (execute engAbort []).1.total_steps = 2 ∧
    (execute engAbort []).1.success_count = 1 ∧
    (execute engAbort []).1.error_count = 1 ∧
    (execute engAbort []).1.steps_results.map (fun r => r.step) = ["A", "B"] ∧
    (execute engAbort []).2.vars = [] := by
  refine ⟨?_, rfl, rfl, rfl, rfl, rfl⟩
  intro engine init
  obtain ⟨rs, contextF, extra, heq0, hlen, hnames, hcount, hdisj⟩ :=
    executeSteps_spec engine.steps ⟨init, [], []⟩ []
  have heq : executeSteps engine.steps ⟨init, [], []⟩ [] = (rs, contextF, extra) := by
    simpa using heq0
  have hx := execute_eq engine init rs contextF extra heq
  simp only [hx]
  refine ⟨hnames, ?_⟩
  rcases hdisj with ⟨hall, _⟩ | ⟨rs0, sr, e, hrs, hall, hsr, _, _, _⟩
  · exact Or.inl hall
  · exact Or.inr ⟨rs0, sr, hrs, hall, hsr⟩

/-- Claim C2 counterexample: a single step that raises `"boom"`. The
error record lands in the result's local error list, but the shared
context's reserved `errors` log — which the claim says also receives it —
ends the run empty. -/
theorem c2_counterexample :
    (execute engOneFail []).1.errors = [⟨"Create Branch", "boom", "failed"⟩] ∧
    (execute engOneFail []).2.errors = [] :=
  ⟨rfl, rfl⟩

/-- Claim C2 (amended): on any exception raised by a step's callable,
`execute` appends an error record with the step name and the exception's
string message to the result's local error list and a `"failed"` record to
the context's created-object log; the context's reserved `"errors"` log is
initialized but never appended to. -/
theorem c2_error_recording (step : WorkflowStep) (context : Ctx)
    (errors : List ErrorInfo) (m : String) (context1 : Ctx)
    (h : callStep step context = (Except.error m, context1)) :
    execute_single_step step context errors =
      (⟨step.name, failPayload step.name m, "failed"⟩,
       { context1 with
         created_objects := context1.created_objects ++
           [createdRecord step.name (failPayload step.name m) "failed"] },
       errors ++ [⟨step.name, m, "failed"⟩]) ∧
    (execute_single_step step context errors).2.1.errors = context1.errors := by
  have h1 := execute_single_step_err step context errors m context1 h
  exact ⟨h1, by rw [h1]⟩

/-- Witness for the amended claim C2 at a concrete failing step. -/
theorem c2_error_recording_witness :
    callStep oneFailStep emptyCtx = (Except.error "boom", emptyCtx) ∧
    (execute_single_step oneFailStep emptyCtx []).2.1.errors = emptyCtx.errors :=
  ⟨rfl, (c2_error_recording oneFailStep emptyCtx [] "boom" emptyCtx rfl).2⟩

/-- Claim C3: calling-convention dispatch and reference threading. A step
registered with no positional or keyword arguments is stored with
`args = kwargs = None` and invoked as `function(context)`; a step
registered with any arguments — positional, keyword, or both — is stored
bound and invoked as `function(*args, **kwargs)` with the context
untouched. Two context-style steps observe the same shared mapping: the
reader step's recorded result is the very object the writer stored under
`"metro"`. -/
theorem c3_calling_convention :
    (∀ (engine : WorkflowEngine) (n : String) (f : Callable),
      (add_step engine n f [] []).steps =
        engine.steps ++ [⟨n, f, Option.none, Option.none⟩]) ∧
    (∀ (step : WorkflowStep) (context : Ctx),
      step.args = Option.none → step.kwargs = Option.none →
      callStep step context = step.function.callCtx context) ∧
    (∀ (engine : WorkflowEngine) (n : String) (f : Callable) (a : List Value)
        (kw : List (String × Value)) (context : Ctx),
      a ≠ [] ∨ kw ≠ [] →
      (add_step engine n f a kw).steps =
        engine.steps ++
          [⟨n, f, if a.isEmpty then Option.none else some a,
            if kw.isEmpty then Option.none else some kw⟩] ∧
      isBound ⟨n, f, if a.isEmpty then Option.none else some a,
        if kw.isEmpty then Option.none else some kw⟩ = true ∧
      callStep ⟨n, f, if a.isEmpty then Option.none else some a,
        if kw.isEmpty then Option.none else some kw⟩ context =
        (f.callArgs a kw, context)) ∧
    (execute engThread []).1.steps_results.map (fun r => r.result) =
      [Value.dict [("status", Value.str "created")], metroObj] ∧
    (execute engThread []).1.steps_results.map (fun r => r.status) =
      ["success", "success"] := by
  refine ⟨fun engine n f => rfl, ?_, ?_, rfl, rfl⟩
  · intro step context h1 h2
    simp [callStep, isBound, h1, h2]
  · intro engine n f a kw context ha
    cases a with
    | nil =>
      cases kw with
      | nil =>
        rcases ha with h | h
        · exact absurd rfl h
        · exact absurd rfl h
      | cons y ys => exact ⟨rfl, rfl, rfl⟩
    | cons x xs =>
      cases kw with
      | nil => exact ⟨rfl, rfl, rfl⟩
      | cons y ys => exact ⟨rfl, rfl, rfl⟩

/-- Witness for claim C3 at a concrete kwargs-only bound registration. -/
theorem c3_calling_convention_witness :
    (([] : List Value) ≠ [] ∨ [(("x" : String), Value.int 5)] ≠ []) ∧
    callStep ⟨"Bound", okCallable rawNode,
        if ([] : List Value).isEmpty then Option.none else some [],
        if [(("x" : String), Value.int 5)].isEmpty then Option.none
          else some [("x", Value.int 5)]⟩ emptyCtx =
      ((okCallable rawNode).callArgs [] [("x", Value.int 5)], emptyCtx) := by
  refine ⟨Or.inr (by simp), ?_⟩
  exact (c3_calling_convention.2.2.1 ⟨"wf", []⟩ "Bound" (okCallable rawNode)
    [] [("x", Value.int 5)] emptyCtx (Or.inr (by simp))).2.2

/-- Claim C4: a fully successful run. If every registered callable
returns without raising (on any context, under either convention), then
`execute` lists exactly the registered steps in order, all with status
`"success"`, with `success_count = total_steps = N`, `error_count = 0`,
and an empty error list. -/
theorem c4_full_success (engine : WorkflowEngine) (init : List (String × Value))
    (hok : ∀ s ∈ engine.steps, ∀ c, ∃ v c', callStep s c = (Except.ok v, c')) :
    (execute engine init).1.steps_results.map (fun r => r.step) =
      engine.steps.map (fun s => s.name) ∧
    (∀ r ∈ (execute engine init).1.steps_results, r.status = "success") ∧
    (execute engine init).1.success_count = engine.steps.length ∧
    (execute engine init).1.total_steps = engine.steps.length ∧
    (execute engine init).1.error_count = 0 ∧
    (execute engine init).1.errors = [] := by
  obtain ⟨rs, contextF, heq, hnames, hall⟩ :=
    executeSteps_all_ok engine.steps ⟨init, [], []⟩ [] hok
  have hx := execute_eq engine init rs contextF [] heq
  have hlen : rs.length = engine.steps.length := by
    have h2 := congrArg List.length hnames
    simpa using h2
  have hfilter : rs.filter (fun r => r.status == "success") = rs := by
    refine List.filter_eq_self.mpr ?_
    intro a ha
    rw [hall a ha]
    rfl
  simp only [hx]
  exact ⟨hnames, hall, by rw [hfilter, hlen], hlen, by simp, by simp⟩

/-- Witness for claim C4 at a concrete two-step all-success engine. -/
theorem c4_full_success_witness :
    (∀ s ∈ engAllOk.steps, ∀ c, ∃ v c', callStep s c = (Except.ok v, c')) ∧
    (execute engAllOk []).1.total_steps = engAllOk.steps.length := by
  have hok : ∀ s ∈ engAllOk.steps, ∀ c, ∃ v c', callStep s c = (Except.ok v, c') := by
    intro s hs c
    have hsteps : engAllOk.steps =
        [⟨"A", okCallable (Value.dict [("status", Value.str "ok")]),
          Option.none, Option.none⟩,
         ⟨"B", okCallable (Value.dict []), Option.none, Option.none⟩] := rfl
    rw [hsteps] at hs
    rcases List.mem_cons.mp hs with h | hs2
    · rw [h]
      exact ⟨Value.dict [("status", Value.str "ok")], c, rfl⟩
    · rcases List.mem_cons.mp hs2 with h | hs3
      · rw [h]
        exact ⟨Value.dict [], c, rfl⟩
      · exact absurd hs3 (List.not_mem_nil s)
  exact ⟨hok, (c4_full_success engAllOk [] hok).2.2.2.1⟩

/-- Claim C5: result arithmetic. Every `WorkflowResult` returned by
`execute` satisfies `success_count + error_count = total_steps` and
`error_count ≤ 1`, and `total_steps` counts attempted steps, so it never
exceeds the number of registered steps. -/
theorem c5_result_arithmetic (engine : WorkflowEngine)
    (init : List (String × Value)) :
    (execute engine init).1.success_count + (execute engine init).1.error_count =
      (execute engine init).1.total_steps ∧
    (execute engine init).1.error_count ≤ 1 ∧
    (execute engine init).1.total_steps ≤ engine.steps.length := by
  obtain ⟨rs, contextF, extra, heq0, hlen, hnames, hcount, hdisj⟩ :=
    executeSteps_spec engine.steps ⟨init, [], []⟩ []
  have heq : executeSteps engine.steps ⟨init, [], []⟩ [] = (rs, contextF, extra) := by
    simpa using heq0
  have hx := execute_eq engine init rs contextF extra heq
  have hextra : extra.length ≤ 1 := by
    rcases hdisj with ⟨_, hex⟩ | ⟨_, _, _, _, _, _, hex, _, _⟩
    · rw [hex]; exact Nat.zero_le 1
    · rw [hex]; exact Nat.le_refl 1
  simp only [hx]
  exact ⟨by omega, hextra, hlen⟩

/-- Claim C6 counterexample: a context-style step whose callable returns
the raw (non-dict) object `rawNode`. The recorded result is that raw
object itself — not a structured dict record synthesized from its
`id`/`name` attributes, contradicting the claim's universal
normalization. -/
theorem c6_counterexample :
    (execute engRawCtx []).1.steps_results.map (fun r => r.result) = [rawNode] ∧
    isDict rawNode = false ∧
    isDict (normalizeResult rawNode) = true :=
  ⟨rfl, rfl, rfl⟩

/-- Claim C6 (amended): result normalization applies only to bound steps
(those registered with args/kwargs): for them a successful non-dict return
is replaced by a record synthesized from the object's `id`/`name`
attributes, each defaulting to `"unknown"` when absent, and the wrapped
record is appended to the created-object log with status `"success"`.
For a context-style step the return value is recorded as-is. -/
theorem c6_normalization :
    (∀ (step : WorkflowStep) (context : Ctx) (errors : List ErrorInfo)
        (v : Value) (context1 : Ctx),
      callStep step context = (Except.ok v, context1) → isBound step = true →
      (execute_single_step step context errors).1.result = normalizeResult v ∧
      (execute_single_step step context errors).2.1.created_objects =
        context1.created_objects ++
          [createdRecord step.name (normalizeResult v) "success"]) ∧
    (∀ (step : WorkflowStep) (context : Ctx) (errors : List ErrorInfo)
        (v : Value) (context1 : Ctx),
      callStep step context = (Except.ok v, context1) → isBound step = false →
      (execute_single_step step context errors).1.result = v) ∧
    (∀ (t : String) (attrs : List (String × Value)),
      attrs.lookup "id" = Option.none → attrs.lookup "name" = Option.none →
      normalizeResult (Value.obj t attrs) =
        Value.dict
          [("status", Value.str "created"), ("node_id", Value.str "unknown"),
           ("name", Value.str "unknown"),
           ("message", Value.str ("Created " ++ t ++ " node"))]) := by
  refine ⟨?_, ?_, ?_⟩
  · intro step context errors v context1 h hb
    have h1 := execute_single_step_ok step context errors v context1 h
    rw [h1]
    simp [hb]
  · intro step context errors v context1 h hb
    have h1 := execute_single_step_ok step context errors v context1 h
    rw [h1]
    simp [hb]
  · intro t attrs h1 h2
    simp [normalizeResult, getattrD, pyStr, h1, h2, pyTypeName]

/-- Witness for the amended claim C6 at a concrete bound step returning a
raw object. -/
theorem c6_normalization_witness :
    callStep boundStep emptyCtx = (Except.ok rawNode, emptyCtx) ∧
    isBound boundStep = true ∧
    (execute_single_step boundStep emptyCtx []).1.result = normalizeResult rawNode :=
  ⟨rfl, rfl, (c6_normalization.1 boundStep emptyCtx [] rawNode emptyCtx rfl rfl).1⟩

/-- Claim C7: `execute` never raises. An exception with any message `m`
raised by a step's callable is caught and reduced to its string message in
the error list (the step is recorded as failed), and every result
`execute` returns has at most one error record, each with status
`"failed"`. -/
theorem c7_execute_never_raises :
    (∀ (step : WorkflowStep) (context : Ctx) (errors : List ErrorInfo)
        (m : String) (context1 : Ctx),
      callStep step context = (Except.error m, context1) →
      (execute_single_step step context errors).2.2 =
        errors ++ [⟨step.name, m, "failed"⟩] ∧
      (execute_single_step step context errors).1.status = "failed") ∧
    (∀ (engine : WorkflowEngine) (init : List (String × Value)),
      (execute engine init).1.error_count ≤ 1 ∧
      ∀ e ∈ (execute engine init).1.errors, e.status = "failed") := by
  constructor
  · intro step context errors m context1 h
    have h1 := execute_single_step_err step context errors m context1 h
    rw [h1]
    exact ⟨rfl, rfl⟩
  · intro engine init
    obtain ⟨rs, contextF, extra, heq0, hlen, hnames, hcount, hdisj⟩ :=
      executeSteps_spec engine.steps ⟨init, [], []⟩ []
    have heq : executeSteps engine.steps ⟨init, [], []⟩ [] = (rs, contextF, extra) := by
      simpa using heq0
    have hx := execute_eq engine init rs contextF extra heq
    simp only [hx]
    constructor
    · rcases hdisj with ⟨_, hex⟩ | ⟨_, _, _, _, _, _, hex, _, _⟩
      · rw [hex]; exact Nat.zero_le 1
      · rw [hex]; exact Nat.le_refl 1
    · intro e he
      rcases hdisj with ⟨_, hex⟩ | ⟨_, _, e0, _, _, _, hex, _, hstat⟩
      · rw [hex] at he
        exact absurd he (List.not_mem_nil e)
      · rw [hex] at he
        rcases List.mem_singleton.mp he with h
        rw [h]
        exact hstat

/-- Witness for claim C7 at a concrete failing step. -/
theorem c7_execute_never_raises_witness :
    callStep oneFailStep emptyCtx = (Except.error "boom", emptyCtx) ∧
    (execute_single_step oneFailStep emptyCtx []).2.2 =
      [] ++ [⟨"Create Branch", "boom", "failed"⟩] :=
  ⟨rfl, (c7_execute_never_raises.1 oneFailStep emptyCtx [] "boom" emptyCtx rfl).1⟩

/-- Claim C8: the caller's context dict is not mutated. In the store
model, `execute` copies the caller's dict into a fresh reference and all
engine writes (the two reserved log keys and every per-step record) target
the copy, so the caller's reference holds the same dict after the call as
before. -/
theorem c8_caller_context_unchanged (engine : WorkflowEngine)
    (store : List (List (String × Value))) (r : Nat) (h : r < store.length) :
    (executeStore engine store r).1[r]? = store[r]? := by
  have h1 : (executeStore engine store r).1 =
      (store ++ [store.getD r []]).set store.length
        (ctxAsDict (execute engine (store.getD r [])).2) := rfl
  rw [h1]
  rw [List.getElem?_set_ne (by omega)]
  exact List.getElem?_append_left h

/-- Witness for claim C8: a one-entry store and a mutating step. -/
theorem c8_caller_context_unchanged_witness :
    0 < ([[("a", Value.int 1)]] : List (List (String × Value))).length ∧
    (executeStore engMutate [[("a", Value.int 1)]] 0).1[0]? =
      ([[("a", Value.int 1)]] : List (List (String × Value)))[0]? :=
  ⟨Nat.zero_lt_one, c8_caller_context_unchanged engMutate [[("a", Value.int 1)]] 0
    Nat.zero_lt_one⟩

/-- Claim C9: `validate_unique_names` returns `None` exactly when no
non-blank name (after stripping) occurs more than once; on duplicates it
names the pluralized field followed by the duplicated values sorted,
deduplicated and comma-joined — in particular
`["a","b","a"]` with field `"Interface"` yields exactly
`"Interfaces must be unique. Duplicates found: a"`, and a field already
ending in `"s"` is not pluralized further. -/
theorem c9_validate_unique_names :
    (∀ (names : List String) (field_name : String),
      validate_unique_names names field_name = Option.none ↔
        ∀ s ∈ namesClean names, (namesClean names).count s ≤ 1) ∧
    validate_unique_names ["a", "b", "a"] "Interface" =
      some "Interfaces must be unique. Duplicates found: a" ∧
    validate_unique_names ["x", "x"] "Links" =
      some "Links must be unique. Duplicates found: x" := by
  refine ⟨?_, rfl, rfl⟩
  intro names field_name
  have hnone : validate_unique_names names field_name = Option.none ↔
      (counterKeys (namesClean names)).filter
        (fun n => (namesClean names).count n > 1) = [] := by
    simp only [validate_unique_names]
    cases hdup : (counterKeys (namesClean names)).filter
        (fun n => (namesClean names).count n > 1) with
    | nil => simp
    | cons d ds => simp
  rw [hnone, List.filter_eq_nil_iff]
  constructor
  · intro h s hs
    have h2 := h s ((mem_counterKeys s (namesClean names)).mpr hs)
    simp only [decide_eq_true_eq] at h2
    omega
  · intro h a ha
    have h2 := h a ((mem_counterKeys a (namesClean names)).mp ha)
    simp only [decide_eq_true_eq]
    omega

/-- Claim C10: `validate_vpc_groups` raises exactly when the two lists
have different lengths; otherwise it returns the list whose members are
precisely the non-blank group names referenced by at least one `True`
flag that have fewer than 2 members — with
`validate_vpc_groups([True,True,False], ["g1","g1",""]) = []` and
`validate_vpc_groups([True,False], ["g1",""]) = ["g1"]`. -/
theorem c10_validate_vpc_groups :
    (∀ (vpcs : List Bool) (vpc_groups : List String),
      (∃ m, validate_vpc_groups vpcs vpc_groups = Except.error m) ↔
        vpcs.length ≠ vpc_groups.length) ∧
    (∀ (vpcs : List Bool) (vpc_groups : List String) (s : String),
      vpcs.length = vpc_groups.length →
      ∃ l, validate_vpc_groups vpcs vpc_groups = Except.ok l ∧
        (s ∈ l ↔ s ≠ "" ∧ 1 ≤ memberCount vpcs vpc_groups s ∧
          memberCount vpcs vpc_groups s < MIN_VPC_GROUP_MEMBERS)) ∧
    validate_vpc_groups [true, true, false] ["g1", "g1", ""] = Except.ok [] ∧
    validate_vpc_groups [true, false] ["g1", ""] = Except.ok ["g1"] := by
  refine ⟨?_, ?_, rfl, rfl⟩
  · intro vpcs vpc_groups
    by_cases h : vpcs.length = vpc_groups.length
    · simp [validate_vpc_groups, h]
    · simp [validate_vpc_groups, h]
  · intro vpcs vpc_groups s hlen
    have hok : validate_vpc_groups vpcs vpc_groups =
        Except.ok ((vpcGroupCounts (vpcs.zip vpc_groups)).filterMap
          (fun p => if p.2 < MIN_VPC_GROUP_MEMBERS then some p.1
            else Option.none)) := by
      simp [validate_vpc_groups, hlen]
    refine ⟨_, hok, ?_⟩
    obtain ⟨hnd, hwf⟩ := vpcFold_wf (vpcs.zip vpc_groups) [] ⟨by simp, by simp⟩
    constructor
    · intro hmem
      obtain ⟨p, hpmem, hpeq⟩ := List.mem_filterMap.mp hmem
      have hlt : p.2 < MIN_VPC_GROUP_MEMBERS ∧ p.1 = s := by
        by_cases h2 : p.2 < MIN_VPC_GROUP_MEMBERS
        · rw [if_pos h2] at hpeq
          exact ⟨h2, Option.some.inj hpeq⟩
        · rw [if_neg h2] at hpeq
          exact absurd hpeq (Option.noConfusion)
      have hwfp := hwf p hpmem
      have hlook : lookupN (vpcGroupCounts (vpcs.zip vpc_groups)) s = p.2 := by
        refine lookupN_of_mem s p.2 _ hnd ?_
        rw [show ((s, p.2) : String × Nat) = p from by
          rw [← hlt.2]]
        exact hpmem
      have hcnt : lookupN (vpcGroupCounts (vpcs.zip vpc_groups)) s =
          memberCount vpcs vpc_groups s := by
        have hne : s ≠ "" := hlt.2 ▸ hwfp.2
        have h3 := vpcFold_lookupN s hne (vpcs.zip vpc_groups) []
        simpa [vpcGroupCounts, lookupN, memberCount] using h3
      refine ⟨hlt.2 ▸ hwfp.2, ?_, ?_⟩
      · rw [← hcnt, hlook]
        exact hwfp.1
      · rw [← hcnt, hlook]
        exact hlt.1
    · rintro ⟨hne, h1, h2⟩
      have hcnt : lookupN (vpcGroupCounts (vpcs.zip vpc_groups)) s =
          memberCount vpcs vpc_groups s := by
        have h3 := vpcFold_lookupN s hne (vpcs.zip vpc_groups) []
        simpa [vpcGroupCounts, lookupN, memberCount] using h3
      have hmem : (s, memberCount vpcs vpc_groups s) ∈
          vpcGroupCounts (vpcs.zip vpc_groups) := by
        have h4 := mem_of_lookupN s (vpcGroupCounts (vpcs.zip vpc_groups))
          (by rw [hcnt]; exact h1)
        rw [hcnt] at h4
        exact h4
      refine List.mem_filterMap.mpr ⟨(s, memberCount vpcs vpc_groups s), hmem, ?_⟩
      rw [if_pos h2]

end Franc
